import Mathlib

/-
  Verification of the pauker-to-sqlite conversion pipeline.

  The repository holds two drafts of the same program, `main.py` and
  `polish.py`.  Shared logic (card ingestion, the vocabulary sampler, HTML
  escaping, the per-span click handler `revealCloze`) is embedded once;
  logic that differs between the drafts (the cloze renderers, the global
  `revealNextCloze` trigger, the generation step) is embedded in the
  namespaces `Main` and `Polish`.

  Strings that the Python code slices and scans are embedded as `List Char`
  so that the scanning functions can be stated and proved by structural
  induction; record fields that are only compared or concatenated stay
  `String`.
-/

/-! ## Data model: ingestion (`convert_pauker_to_sqlite`, both files) -/

/-- A `FrontSide`/`ReverseSide` XML element: an optional `Text` child (whose
own text may be absent, `elem.text is None` in Python) and the optional
`LearnedTimestamp` attribute (an XML attribute, hence a string when
present; the Python code defaults it to `0`). -/
structure SideXml where
  textElem : Option (Option String)
  learnedTimestamp : Option String
deriving Repr, DecidableEq

/-- A `Card` XML element with its optional `FrontSide` and `ReverseSide`
children. -/
structure CardXml where
  frontSide : Option SideXml
  reverseSide : Option SideXml
deriving Repr, DecidableEq

/-- A row of the `cards` table. -/
structure Card where
  id : String
  batch_number : Nat
  front_text : String
  back_text : String
  learned_timestamp : Option String
deriving Repr, DecidableEq

/-- Text extraction for one side, from `convert_pauker_to_sqlite`
(main.py:104-123, polish.py:105-124): when the side and its `Text` child
exist the stored text is `f'"{front_text_elem.text or ""}"'`, i.e. the
child text (or the empty string when the text is `None`) wrapped in
literal double quotes; otherwise the empty string. -/
def extractSideText (side : Option SideXml) : String :=
  match side with
  | none => ""
  | some s =>
    match s.textElem with
    | none => ""
    | some t => "\"" ++ t.getD ("") ++ "\""

/-- The card row built for the XML card `x`, card counter `n` (the row id is
`f'card{total_cards + 1}'`) and 1-based batch index `bi`. -/
def mkCard (n : Nat) (bi : Nat) (x : CardXml) : Card :=
  { id := "card" ++ toString n
    batch_number := bi
    front_text := extractSideText x.frontSide
    back_text := extractSideText x.reverseSide
    learned_timestamp := x.frontSide.bind (·.learnedTimestamp) }

/-- Ingestion of the batches of the parsed XML document: batches are numbered
from 1 (`enumerate(batches, 1)`), the card counter runs across batches. -/
def ingestBatches : Nat → Nat → List (List CardXml) → List Card
  | _, _, [] => []
  | bi, n, b :: bs =>
    let rows := (List.range b.length).zip b |>.map fun p => mkCard (n + p.1 + 1) bi p.2
    rows ++ ingestBatches (bi + 1) (n + b.length) bs

/-- All card rows inserted into the `cards` table for a parsed document. -/
def ingestCards (batches : List (List CardXml)) : List Card :=
  ingestBatches 1 0 batches

/-! ## Vocabulary sampler (`generate_example_story`, both files)

The SQL query is
`SELECT front_text, back_text FROM cards WHERE batch_number != 1
 ORDER BY random() LIMIT 15`;
`ORDER BY random()` is modelled by quantifying over the order of the
input row list (`rows` ranges over all permutations of the table).  The
Python loop then keeps the rows satisfying `if front_text or back_text`
(string truthiness, i.e. at least one field non-empty) and formats each
as `f"{front_text},{back_text}"`. -/

/-- The SQL `WHERE batch_number != 1` filter. -/
def qualifies (c : Card) : Bool := c.batch_number != 1

/-- The Python truthiness test `if front_text or back_text`. -/
def nonEmptyCard (c : Card) : Bool := (c.front_text != "") || (c.back_text != "")

/-- The `f"{front_text},{back_text}"` vocabulary entry. -/
def vocabEntry (c : Card) : String := c.front_text ++ "," ++ c.back_text

/-- The rows the SQL query returns: the qualifying rows of the (randomly
ordered) table, capped by `LIMIT 15`. -/
def sampledRows (rows : List Card) : List Card :=
  (rows.filter qualifies).take 15

/-- The `vocab_list` the Python loop builds from the query result. -/
def vocabList (rows : List Card) : List String :=
  ((sampledRows rows).filter nonEmptyCard).map vocabEntry

/-! ## Claim C1 — sampler cap

The cap is applied by the SQL `LIMIT 15` *before* the Python emptiness
filter runs, so rows with both fields empty do count toward the cap: the
claim that they are "dropped without counting toward that cap" fails. -/

/-- A qualifying (batch 2) row with both text fields empty. -/
def emptyRow : Card := ⟨"card1", 2, "", "", none⟩

/-- A qualifying (batch 2) row with non-empty text fields. -/
def neRow (n : Nat) : Card := ⟨"card" ++ toString (n + 2), 2, "\"a\"", "\"b\"", none⟩

/-- A store order with 15 qualifying non-empty rows but an empty-empty
qualifying row among the randomly chosen first 15. -/
def c1Rows : List Card := emptyRow :: (List.range 15).map neRow

/-- A store order with exactly 15 qualifying rows, all non-empty. -/
def c1WitnessRows : List Card := (List.range 15).map neRow

/-- C1 counterexample: `c1Rows` holds 15 qualifying non-empty records
outside the excluded partition, yet the sampler returns only 14 entries,
because the empty-empty record consumed one of the `LIMIT 15` slots before
the emptiness filter ran. -/
theorem sampler_cap_counterexample :
    15 ≤ (c1Rows.filter fun c => qualifies c && nonEmptyCard c).length
    ∧ (vocabList c1Rows).length = 14 := by decide

/-- C1 amended: the sampler never raises and returns at most 15 entries;
when every qualifying record is non-empty and at least 15 qualify it
returns exactly 15; when at most 15 records qualify it returns exactly the
non-empty ones among them (in particular the empty sequence when none are
non-empty).  Records with both fields empty count toward the cap because
`LIMIT 15` runs before the emptiness filter. -/
theorem sampler_cap_amended (rows : List Card) :
    (vocabList rows).length ≤ 15
    ∧ ((∀ c ∈ rows, qualifies c = true → nonEmptyCard c = true) →
        15 ≤ (rows.filter qualifies).length → (vocabList rows).length = 15)
    ∧ ((rows.filter qualifies).length ≤ 15 →
        vocabList rows = ((rows.filter qualifies).filter nonEmptyCard).map vocabEntry) := by
  refine ⟨?_, ?_, ?_⟩
  · have h1 := List.length_filter_le nonEmptyCard (sampledRows rows)
    have h2 : (sampledRows rows).length ≤ 15 := by
      simp only [sampledRows, List.length_take]
      exact min_le_left _ _
    simpa [vocabList] using le_trans h1 h2
  · intro hne h15
    have hall : ∀ a ∈ (rows.filter qualifies).take 15, nonEmptyCard a = true := by
      intro a ha
      have hmem := List.take_subset _ _ ha
      have hsplit := List.mem_filter.mp hmem
      exact hne a hsplit.1 hsplit.2
    simp only [vocabList, sampledRows, List.length_map, List.filter_eq_self.mpr hall,
      List.length_take]
    exact Nat.min_eq_left h15
  · intro h
    simp only [vocabList, sampledRows, List.take_of_length_le h]

/-- C1 amended witness: with exactly 15 qualifying, all non-empty rows, the
sampler returns exactly 15 entries, namely all of them. -/
theorem sampler_cap_amended_witness :
    (vocabList c1WitnessRows).length = 15
    ∧ vocabList c1WitnessRows
        = ((c1WitnessRows.filter qualifies).filter nonEmptyCard).map vocabEntry :=
  ⟨(sampler_cap_amended c1WitnessRows).2.1 (by decide) (by decide),
   (sampler_cap_amended c1WitnessRows).2.2 (by decide)⟩

/-! ## Claim C9 — exclusion invariant -/

/-- C9: no row returned by the sampler's query has the excluded batch
number 1 — the `WHERE batch_number != 1` filter runs before `LIMIT`. -/
theorem sampler_exclusion (rows : List Card) :
    ∀ c ∈ sampledRows rows, c.batch_number ≠ 1 := by
  intro c hc
  have hmem := List.take_subset _ _ hc
  have h2 := (List.mem_filter.mp hmem).2
  simpa [qualifies] using h2

/-- C9 witness: the single batch-2 row of a concrete store is sampled and
indeed does not carry the excluded batch number. -/
theorem sampler_exclusion_witness : (emptyRow).batch_number ≠ 1 :=
  sampler_exclusion [emptyRow] emptyRow (by decide)

/-! ## HTML escaping (`html.escape`, used by `process_cloze` in both files)

Both drafts call `html.escape` (with its default `quote=True`) on the text
extracted from a cloze span before embedding it in the markup attributes.
`html.escape` replaces `&` first and then `<`, `>`, `"`, `'`, which is
equivalent to replacing each character independently. -/

/-- The double-quote character (written via its code point to keep character
literals simple). -/
def dquote : Char := Char.ofNat 34

/-- The single-quote character. -/
def squote : Char := Char.ofNat 39

/-- Per-character replacement performed by `html.escape(s, quote=True)`. -/
def escapeChar (c : Char) : List Char :=
  if c = '&' then "&amp;".toList
  else if c = '<' then "&lt;".toList
  else if c = '>' then "&gt;".toList
  else if c = dquote then "&quot;".toList
  else if c = squote then "&#x27;".toList
  else [c]

/-- `html.escape(s, quote=True)` on a whole string. -/
def htmlEscape : List Char → List Char
  | [] => []
  | c :: t => escapeChar c ++ htmlEscape t

/-- Strips a concrete expected run of characters from the front of a list,
returning the remainder when the run is present. -/
def stripPre : List Char → List Char → Option (List Char)
  | [], l => some l
  | _ :: _, [] => none
  | p :: ps, c :: cs => if c = p then stripPre ps cs else none

/-- Modelled from the spec: the un-escaping step of the round-trip property.
The repository never un-escapes (`html.unescape` would); this is the
standard entity decoder restricted to the five entities `html.escape`
emits, fuelled by the input length so the recursion is structural. -/
def htmlUnescapeF : Nat → List Char → List Char
  | 0, l => l
  | _ + 1, [] => []
  | fuel + 1, c :: t =>
    if c = '&' then
      match stripPre ("amp;".toList) t with
      | some r => '&' :: htmlUnescapeF fuel r
      | none =>
        match stripPre ("lt;".toList) t with
        | some r => '<' :: htmlUnescapeF fuel r
        | none =>
          match stripPre ("gt;".toList) t with
          | some r => '>' :: htmlUnescapeF fuel r
          | none =>
            match stripPre ("quot;".toList) t with
            | some r => dquote :: htmlUnescapeF fuel r
            | none =>
              match stripPre ("#x27;".toList) t with
              | some r => squote :: htmlUnescapeF fuel r
              | none => c :: htmlUnescapeF fuel t
    else c :: htmlUnescapeF fuel t

/-- Un-escaping with enough fuel for any input. -/
def htmlUnescape (l : List Char) : List Char := htmlUnescapeF l.length l

/-- One un-escaping step undoes one character's escaping. -/
theorem unescapeF_escapeChar (f : Nat) (c : Char) (t : List Char) :
    htmlUnescapeF (f + 1) (escapeChar c ++ t) = c :: htmlUnescapeF f t := by
  by_cases h1 : c = '&'
  · subst h1; rfl
  by_cases h2 : c = '<'
  · subst h2; rfl
  by_cases h3 : c = '>'
  · subst h3; rfl
  by_cases h4 : c = dquote
  · subst h4; rfl
  by_cases h5 : c = squote
  · subst h5; rfl
  have he : escapeChar c = [c] := by simp [escapeChar, h1, h2, h3, h4, h5]
  rw [he]
  show htmlUnescapeF (f + 1) (c :: t) = c :: htmlUnescapeF f t
  simp [htmlUnescapeF, h1]

/-- Escaping cannot shrink a string. -/
theorem le_length_htmlEscape (s : List Char) : s.length ≤ (htmlEscape s).length := by
  induction s with
  | nil => simp [htmlEscape]
  | cons c t ih =>
    have h : 1 ≤ (escapeChar c).length := by
      simp only [escapeChar]
      split
      · decide
      split
      · decide
      split
      · decide
      split
      · decide
      split
      · decide
      · simp
    simp only [htmlEscape, List.length_append, List.length_cons]
    omega

/-- Round trip with explicit fuel. -/
theorem unescapeF_escape (s : List Char) :
    ∀ f, s.length ≤ f → htmlUnescapeF f (htmlEscape s) = s := by
  induction s with
  | nil => intro f _; cases f <;> rfl
  | cons c t ih =>
    intro f hf
    obtain ⟨f', rfl⟩ : ∃ f', f = f' + 1 := ⟨f - 1, by simp at hf; omega⟩
    show htmlUnescapeF (f' + 1) (escapeChar c ++ htmlEscape t) = c :: t
    rw [unescapeF_escapeChar]
    have : t.length ≤ f' := by simp at hf; omega
    rw [ih f' this]

/-- C6: escaping a cloze string and un-escaping the result yields the
original string, for every string; and the escaping rewrites exactly the
five markup-special characters, leaving every other character unchanged. -/
theorem escape_roundtrip (s : List Char) :
    htmlUnescape (htmlEscape s) = s
    ∧ ∀ c : Char,
        (escapeChar c ≠ [c] ↔ (c = '&' ∨ c = '<' ∨ c = '>' ∨ c = dquote ∨ c = squote)) := by
  constructor
  · exact unescapeF_escape s _ (le_length_htmlEscape s)
  · intro c
    constructor
    · intro h
      by_contra hn
      push_neg at hn
      obtain ⟨n1, n2, n3, n4, n5⟩ := hn
      exact h (by simp [escapeChar, n1, n2, n3, n4, n5])
    · rintro (rfl | rfl | rfl | rfl | rfl) <;> decide

/-! ## Cloze renderers

`polish.py` rewrites the flattened story with
`re.sub(r'\[.*?\]', process_cloze, ...)` — bracket-only spans;
`main.py` rewrites with
`re.sub(r'\[.*?\]\(.*?\)', process_cloze, ...)` — bracket-plus-hint spans.
The regex engines are embedded directly: scanning is left to right, `.`
does not match a newline, `.*?` is non-greedy (takes the shortest extent
that lets the rest of the pattern match), and matches do not overlap.
Both drafts first prepend `<br>` to each `A:`/`B:` line
(`re.sub(r'^(A:|B:)', r'<br>\1', story, flags=re.MULTILINE)`).
Recursions over the scanned text carry an explicit fuel (initialised to
the text length, which always suffices) so they are structural. -/

/-- First index of `c` in a list (`str.index` without its exception). -/
def firstIdx (c : Char) : List Char → Option Nat
  | [] => none
  | d :: t => if d = c then some 0 else (firstIdx c t).map (· + 1)

/-- Index of the first `]` reachable by `.*?` (i.e. with no newline before
it), as the pattern `\[.*?\]` requires after the opening bracket. -/
def findCloseBracket : List Char → Option Nat
  | [] => none
  | c :: t => if c = ']' then some 0 else if c = '\n' then none else (findCloseBracket t).map (· + 1)

/-- Index of the first `)` reachable by `.*?` (no newline before it). -/
def findParen : List Char → Option Nat
  | [] => none
  | c :: t => if c = ')' then some 0 else if c = '\n' then none else (findParen t).map (· + 1)

/-- Matching of `.*?\]\(.*?\)` against the text following an opening `[`:
the engine grows the first `.*?` (never across a newline) until it finds
`](` followed by a `)` reachable without a newline, and returns how many
characters the match consumes after the `[`. -/
def findMainMatch : List Char → Option Nat
  | [] => none
  | c :: t =>
    if c = '\n' then none
    else if c = ']' ∧ t.head? = some '(' then
      match findParen (t.drop 1) with
      | some k => some (k + 3)
      | none => (findMainMatch t).map (· + 1)
    else (findMainMatch t).map (· + 1)

/-- Python `str.split('](')`: the parts of a string around every
non-overlapping occurrence of `](`, found left to right. -/
def splitParts : List Char → List (List Char)
  | [] => [[]]
  | [c] => [[c]]
  | c :: d :: t =>
    if c = ']' ∧ d = '(' then [] :: splitParts t
    else
      match splitParts (d :: t) with
      | [] => [[c]]
      | p :: ps => (c :: p) :: ps

/-- The `re.MULTILINE` substitution `^(A:|B:)` → `<br>\1`: does this
position (a line start when the flag is true) begin a speaker turn? -/
def startsTurn : List Char → Bool
  | a :: b :: _ => ((a == 'A') || (a == 'B')) && (b == ':')
  | _ => false

/-- The line-break pass shared by both drafts: prepend `<br>` to every
`A:`/`B:` found at the start of a line. -/
def addLineBreaks : Bool → List Char → List Char
  | _, [] => []
  | atStart, c :: t =>
    if atStart && startsTurn (c :: t) then "<br>".toList ++ c :: addLineBreaks false t
    else if c = '\n' then c :: addLineBreaks true t
    else c :: addLineBreaks false t

namespace Polish

/-- The replacement span `process_cloze` builds in polish.py: the concealed
answer is the escaped bracket content; there is no hint. -/
def clozeSpan (content : List Char) : List Char :=
  "<span class=\"cloze\" onclick=\"revealCloze(this)\" data-original=\"".toList
  ++ htmlEscape content ++ "\">[…]</span>".toList

/-- polish.py's `process_cloze` (lines 283-292): extract the text between
the first `[` and the first `]` of the match, escape it, and emit the
span; if either bracket is missing (`str.index` raises `ValueError`) fall
back to the match unchanged. -/
def process_cloze (m : List Char) : List Char :=
  match firstIdx '[' m, firstIdx ']' m with
  | some i, some j => clozeSpan ((m.drop (i + 1)).take (j - (i + 1)))
  | _, _ => m

/-- The `re.sub(r'\[.*?\]', process_cloze, text)` scan, with fuel. -/
def subClozeF : Nat → List Char → List Char
  | 0, l => l
  | _ + 1, [] => []
  | fuel + 1, c :: rest =>
    if c = '[' then
      match findCloseBracket rest with
      | some j => process_cloze ('[' :: rest.take (j + 1)) ++ subClozeF fuel (rest.drop (j + 1))
      | none => c :: subClozeF fuel rest
    else c :: subClozeF fuel rest

/-- polish.py's cloze extraction over a whole text. -/
def subCloze (l : List Char) : List Char := subClozeF l.length l

/-- polish.py's full story rendering: line breaks, then clozes. -/
def renderStory (story : List Char) : List Char := subCloze (addLineBreaks true story)

end Polish

namespace Main

/-- The replacement span `process_cloze` builds in main.py: concealed
escaped answer, escaped hint as `title`, and a visible hint sidecar. -/
def clozeSpan (content hint : List Char) : List Char :=
  "<span class=\"cloze\" onclick=\"revealCloze(this)\" data-original=\"".toList
  ++ htmlEscape content
  ++ "\" title=\"".toList
  ++ htmlEscape hint
  ++ "\">[…]</span><span class=\"hint\">(".toList
  ++ htmlEscape hint
  ++ ")</span>".toList

/-- main.py's `process_cloze` (lines 278-287): split the match's interior
on `](` into exactly an answer and a hint, escape both, and emit the
spans; when the split does not yield exactly two parts (`ValueError` on
unpacking) fall back to the match unchanged. -/
def process_cloze (m : List Char) : List Char :=
  match splitParts ((m.drop 1).dropLast) with
  | [content, hint] => clozeSpan content hint
  | _ => m

/-- The `re.sub(r'\[.*?\]\(.*?\)', process_cloze, text)` scan, with fuel. -/
def subClozeF : Nat → List Char → List Char
  | 0, l => l
  | _ + 1, [] => []
  | fuel + 1, c :: rest =>
    if c = '[' then
      match findMainMatch rest with
      | some n => process_cloze ('[' :: rest.take n) ++ subClozeF fuel (rest.drop n)
      | none => c :: subClozeF fuel rest
    else c :: subClozeF fuel rest

/-- main.py's cloze extraction over a whole text. -/
def subCloze (l : List Char) : List Char := subClozeF l.length l

/-- main.py's full story rendering: line breaks, then clozes. -/
def renderStory (story : List Char) : List Char := subCloze (addLineBreaks true story)

end Main

/-! ## Renderer lemmas -/

/-- Characters that keep a segment inert for both regexes: no brackets, no
parentheses, no newline. -/
def plainSeg (x : List Char) : Prop :=
  ∀ c ∈ x, c ≠ '[' ∧ c ≠ ']' ∧ c ≠ '(' ∧ c ≠ ')' ∧ c ≠ '\n'

instance (x : List Char) : Decidable (plainSeg x) :=
  List.decidableBAll _ x

theorem findCloseBracket_pre (a s : List Char) (ha : ∀ c ∈ a, c ≠ ']' ∧ c ≠ '\n') :
    findCloseBracket (a ++ ']' :: s) = some a.length := by
  induction a with
  | nil => rfl
  | cons c t ih =>
    have hc := ha c (by simp)
    have ht : ∀ x ∈ t, x ≠ ']' ∧ x ≠ '\n' := fun x hx => ha x (by simp [hx])
    simp [findCloseBracket, hc.1, hc.2, ih ht]

theorem findCloseBracket_none (s : List Char) (h : ']' ∉ s) : findCloseBracket s = none := by
  induction s with
  | nil => rfl
  | cons c t ih =>
    have hc : c ≠ ']' := fun e => h (by simp [e])
    have ht : ']' ∉ t := fun m => h (by simp [m])
    simp [findCloseBracket, hc, ih ht]

theorem findParen_pre (b s : List Char) (hb : ∀ c ∈ b, c ≠ ')' ∧ c ≠ '\n') :
    findParen (b ++ ')' :: s) = some b.length := by
  induction b with
  | nil => rfl
  | cons c t ih =>
    have hc := hb c (by simp)
    have ht : ∀ x ∈ t, x ≠ ')' ∧ x ≠ '\n' := fun x hx => hb x (by simp [hx])
    simp [findParen, hc.1, hc.2, ih ht]

theorem findMainMatch_none_noParen (s : List Char) (h : '(' ∉ s) : findMainMatch s = none := by
  induction s with
  | nil => rfl
  | cons c t ih =>
    have ht : '(' ∉ t := fun m => h (by simp [m])
    have hhead : t.head? ≠ some '(' := by
      cases t with
      | nil => simp
      | cons d u =>
        simp only [List.head?, ne_eq, Option.some.injEq]
        rintro rfl
        exact ht (List.mem_cons_self _ _)
    by_cases hn : c = '\n'
    · simp [findMainMatch, hn]
    · have hcond : ¬(c = ']' ∧ t.head? = some '(') := fun hand => hhead hand.2
      simp [findMainMatch, hn, hcond, ih ht]

theorem findMainMatch_none_noBracket (s : List Char) (h : ']' ∉ s) : findMainMatch s = none := by
  induction s with
  | nil => rfl
  | cons c t ih =>
    have hc : c ≠ ']' := fun e => h (by simp [e])
    have ht : ']' ∉ t := fun m => h (by simp [m])
    by_cases hn : c = '\n'
    · simp [findMainMatch, hn]
    · have hcond : ¬(c = ']' ∧ t.head? = some '(') := fun hand => hc hand.1
      simp [findMainMatch, hn, hcond, ih ht]

theorem findMainMatch_pre (a b s : List Char) (ha : plainSeg a) (hb : plainSeg b) :
    findMainMatch (a ++ ']' :: '(' :: b ++ ')' :: s) = some (a.length + b.length + 3) := by
  induction a with
  | nil =>
    have hp : findParen (b ++ ')' :: s) = some b.length :=
      findParen_pre b s (fun c hc => ⟨(hb c hc).2.2.2.1, (hb c hc).2.2.2.2⟩)
    simp [findMainMatch, hp]
  | cons c t ih =>
    have hc := ha c (by simp)
    have ht : plainSeg t := fun x hx => ha x (by simp [hx])
    have hcond : ¬(c = ']' ∧ (t ++ ']' :: '(' :: b ++ ')' :: s).head? = some '(') :=
      fun hand => hc.2.1 hand.1
    show findMainMatch (c :: (t ++ ']' :: '(' :: b ++ ')' :: s))
        = some ((c :: t).length + b.length + 3)
    simp only [findMainMatch]
    rw [if_neg hc.2.2.2.2, if_neg hcond, ih ht]
    simp only [Option.map_some', List.length_cons, Option.some.injEq]
    omega

theorem splitParts_nosep (l : List Char) (hl : ∀ c ∈ l, c ≠ ']') : splitParts l = [l] := by
  induction l with
  | nil => rfl
  | cons c t ih =>
    cases t with
    | nil => rfl
    | cons d u =>
      have hc : c ≠ ']' := hl c (by simp)
      have ht : ∀ x ∈ d :: u, x ≠ ']' := fun x hx => hl x (by simp [hx])
      have hcond : ¬(c = ']' ∧ d = '(') := fun hand => hc hand.1
      simp only [splitParts, if_neg hcond, ih ht]

theorem splitParts_pair (a b : List Char) (ha : ∀ c ∈ a, c ≠ ']') (hb : ∀ c ∈ b, c ≠ ']') :
    splitParts (a ++ ']' :: '(' :: b) = [a, b] := by
  induction a with
  | nil =>
    show splitParts (']' :: '(' :: b) = [[], b]
    simp [splitParts, splitParts_nosep b hb]
  | cons c t ih =>
    have hc : c ≠ ']' := ha c (by simp)
    have ht : ∀ x ∈ t, x ≠ ']' := fun x hx => ha x (by simp [hx])
    cases t with
    | nil =>
      show splitParts (c :: ']' :: '(' :: b) = [[c], b]
      simp [splitParts, hc, splitParts_nosep b hb]
    | cons d u =>
      show splitParts (c :: (d :: u ++ ']' :: '(' :: b)) = [c :: d :: u, b]
      have ih' := ih ht
      simp only [List.cons_append] at ih'
      simp [splitParts, hc, ih']

theorem firstIdx_pre (x : Char) (a s : List Char) (ha : ∀ c ∈ a, c ≠ x) :
    firstIdx x (a ++ x :: s) = some a.length := by
  induction a with
  | nil => simp [firstIdx]
  | cons c t ih =>
    have hc : c ≠ x := ha c (by simp)
    have ht : ∀ y ∈ t, y ≠ x := fun y hy => ha y (by simp [hy])
    simp [firstIdx, hc, ih ht]

theorem polish_subClozeF_nil (fuel : Nat) : Polish.subClozeF fuel [] = [] := by
  cases fuel <;> rfl

theorem main_subClozeF_nil (fuel : Nat) : Main.subClozeF fuel [] = [] := by
  cases fuel <;> rfl

theorem polish_subClozeF_copy (l : List Char) (h : '[' ∉ l) :
    ∀ fuel, Polish.subClozeF fuel l = l := by
  induction l with
  | nil => exact polish_subClozeF_nil
  | cons c t ih =>
    intro fuel
    cases fuel with
    | zero => rfl
    | succ f =>
      have hc : c ≠ '[' := fun e => h (by simp [e])
      have ht : '[' ∉ t := fun m => h (by simp [m])
      simp [Polish.subClozeF, hc, ih ht f]

theorem main_subClozeF_copy (l : List Char) (h : '[' ∉ l) :
    ∀ fuel, Main.subClozeF fuel l = l := by
  induction l with
  | nil => exact main_subClozeF_nil
  | cons c t ih =>
    intro fuel
    cases fuel with
    | zero => rfl
    | succ f =>
      have hc : c ≠ '[' := fun e => h (by simp [e])
      have ht : '[' ∉ t := fun m => h (by simp [m])
      simp [Main.subClozeF, hc, ih ht f]

theorem polish_subClozeF_noClose (l : List Char) (h : ']' ∉ l) :
    ∀ fuel, Polish.subClozeF fuel l = l := by
  induction l with
  | nil => exact polish_subClozeF_nil
  | cons c t ih =>
    intro fuel
    cases fuel with
    | zero => rfl
    | succ f =>
      have ht : ']' ∉ t := fun m => h (by simp [m])
      by_cases hc : c = '['
      · subst hc
        simp [Polish.subClozeF, findCloseBracket_none t ht, ih ht f]
      · simp [Polish.subClozeF, hc, ih ht f]

theorem main_subClozeF_noClose (l : List Char) (h : ']' ∉ l) :
    ∀ fuel, Main.subClozeF fuel l = l := by
  induction l with
  | nil => exact main_subClozeF_nil
  | cons c t ih =>
    intro fuel
    cases fuel with
    | zero => rfl
    | succ f =>
      have ht : ']' ∉ t := fun m => h (by simp [m])
      by_cases hc : c = '['
      · subst hc
        simp [Main.subClozeF, findMainMatch_none_noBracket t ht, ih ht f]
      · simp [Main.subClozeF, hc, ih ht f]

theorem polish_process_cloze_bare (a : List Char) (ha : ∀ c ∈ a, c ≠ ']') :
    Polish.process_cloze ('[' :: a ++ [']']) = Polish.clozeSpan a := by
  have h1 : firstIdx '[' ('[' :: a ++ [']']) = some 0 := by simp [firstIdx]
  have hne : ('[' : Char) ≠ ']' := by decide
  have h2 : firstIdx ']' ('[' :: a ++ [']']) = some (a.length + 1) := by
    have h0 : firstIdx ']' (a ++ [']']) = some a.length := firstIdx_pre ']' a [] ha
    simp [firstIdx, hne, h0]
  simp only [Polish.process_cloze, h1, h2]
  congr 1
  show (a ++ [']']).take (a.length + 1 - 1) = a
  simp

theorem main_process_cloze_pair (a b : List Char)
    (ha : ∀ c ∈ a, c ≠ ']') (hb : ∀ c ∈ b, c ≠ ']') :
    Main.process_cloze ('[' :: a ++ ']' :: '(' :: b ++ [')']) = Main.clozeSpan a b := by
  have hinner : (('[' :: a ++ ']' :: '(' :: b ++ [')']).drop 1).dropLast
      = a ++ ']' :: '(' :: b := by
    show (a ++ ']' :: '(' :: b ++ [')']).dropLast = a ++ ']' :: '(' :: b
    have : a ++ ']' :: '(' :: b ++ [')'] = (a ++ ']' :: '(' :: b) ++ [')'] := by simp
    rw [this, List.dropLast_concat]
  simp only [Main.process_cloze, hinner, splitParts_pair a b ha hb]

theorem main_subCloze_span (a b : List Char) (ha : plainSeg a) (hb : plainSeg b) :
    Main.subCloze ('[' :: a ++ ']' :: '(' :: b ++ [')']) = Main.clozeSpan a b := by
  have haNe : ∀ c ∈ a, c ≠ ']' := fun c hc => (ha c hc).2.1
  have hbNe : ∀ c ∈ b, c ≠ ']' := fun c hc => (hb c hc).2.1
  have hm : findMainMatch (a ++ ']' :: '(' :: (b ++ [')']))
      = some (a.length + b.length + 3) := by
    simpa [List.cons_append] using findMainMatch_pre a b [] ha hb
  have hp : Main.process_cloze ('[' :: (a ++ ']' :: '(' :: (b ++ [')'])))
      = Main.clozeSpan a b := by
    simpa [List.cons_append] using main_process_cloze_pair a b haNe hbNe
  have hlenR : (a ++ ']' :: '(' :: (b ++ [')'])).length = a.length + b.length + 3 := by
    simp only [List.length_append, List.length_cons, List.length_nil]
    omega
  have key : Main.subClozeF ('[' :: (a ++ ']' :: '(' :: (b ++ [')']))).length
      ('[' :: (a ++ ']' :: '(' :: (b ++ [')']))) = Main.clozeSpan a b := by
    simp only [List.length_cons, Main.subClozeF, hm, if_true]
    rw [← hlenR, List.take_length, List.drop_length, hp, main_subClozeF_nil, List.append_nil]
  simp only [List.cons_append, List.append_assoc]
  exact key

theorem polish_subCloze_bare (a : List Char) (ha : plainSeg a) :
    Polish.subCloze ('[' :: a ++ [']']) = Polish.clozeSpan a := by
  have haNJ : ∀ c ∈ a, c ≠ ']' ∧ c ≠ '\n' := fun c hc => ⟨(ha c hc).2.1, (ha c hc).2.2.2.2⟩
  have hf : findCloseBracket (a ++ [']']) = some a.length := findCloseBracket_pre a [] haNJ
  have hp : Polish.process_cloze ('[' :: (a ++ [']'])) = Polish.clozeSpan a := by
    simpa [List.cons_append] using polish_process_cloze_bare a (fun c hc => (ha c hc).2.1)
  have hlenR : (a ++ [']']).length = a.length + 1 := by
    simp
  have key : Polish.subClozeF ('[' :: (a ++ [']'])).length ('[' :: (a ++ [']']))
      = Polish.clozeSpan a := by
    simp only [List.length_cons, Polish.subClozeF, hf, if_true]
    rw [← hlenR, List.take_length, List.drop_length, hp, polish_subClozeF_nil,
      List.append_nil]
  simp only [List.cons_append, List.append_assoc]
  exact key

theorem main_subCloze_bare (a : List Char) (ha : plainSeg a) :
    Main.subCloze ('[' :: a ++ [']']) = '[' :: a ++ [']'] := by
  have hnp : '(' ∉ a ++ [']'] := by
    intro hm
    rcases List.mem_append.mp hm with h | h
    · exact (ha _ h).2.2.1 rfl
    · simp at h
  have hnb : '[' ∉ a ++ [']'] := by
    intro hm
    rcases List.mem_append.mp hm with h | h
    · exact (ha _ h).1 rfl
    · simp at h
  have hfm : findMainMatch (a ++ [']']) = none := findMainMatch_none_noParen _ hnp
  have key : Main.subClozeF ('[' :: (a ++ [']'])).length ('[' :: (a ++ [']']))
      = '[' :: (a ++ [']']) := by
    simp only [List.length_cons, Main.subClozeF, hfm]
    rw [main_subClozeF_copy _ hnb]
    simp
  simp only [List.cons_append, List.append_assoc]
  exact key

theorem polish_subCloze_hintSpan (a b : List Char) (ha : plainSeg a) (hb : plainSeg b) :
    Polish.subCloze ('[' :: a ++ ']' :: '(' :: b ++ [')'])
      = Polish.clozeSpan a ++ '(' :: b ++ [')'] := by
  have haNJ : ∀ c ∈ a, c ≠ ']' ∧ c ≠ '\n' := fun c hc => ⟨(ha c hc).2.1, (ha c hc).2.2.2.2⟩
  have hf : findCloseBracket (a ++ ']' :: ('(' :: (b ++ [')']))) = some a.length :=
    findCloseBracket_pre a ('(' :: (b ++ [')'])) haNJ
  have htake : (a ++ ']' :: ('(' :: (b ++ [')']))).take (a.length + 1) = a ++ [']'] := by
    simpa using @List.take_append Char a (']' :: ('(' :: (b ++ [')']))) 1
  have hdrop : (a ++ ']' :: ('(' :: (b ++ [')']))).drop (a.length + 1)
      = '(' :: (b ++ [')']) := by
    have h0 := @List.drop_append Char a (']' :: ('(' :: (b ++ [')']))) 1
    simp only [List.drop_succ_cons, List.drop_zero] at h0
    exact h0
  have hp : Polish.process_cloze ('[' :: (a ++ [']'])) = Polish.clozeSpan a := by
    simpa [List.cons_append] using polish_process_cloze_bare a (fun c hc => (ha c hc).2.1)
  have hrest : '[' ∉ '(' :: (b ++ [')']) := by
    intro hm
    rcases List.mem_cons.mp hm with h | h
    · exact absurd h (by decide)
    rcases List.mem_append.mp h with h | h
    · exact (hb _ h).1 rfl
    · simp at h
  have key : Polish.subClozeF ('[' :: (a ++ ']' :: ('(' :: (b ++ [')'])))).length
      ('[' :: (a ++ ']' :: ('(' :: (b ++ [')']))))
      = Polish.clozeSpan a ++ ('(' :: (b ++ [')'])) := by
    simp only [List.length_cons, Polish.subClozeF, hf, if_true]
    rw [htake, hdrop, hp, polish_subClozeF_copy _ hrest]
  simp only [List.cons_append, List.append_assoc]
  exact key

/-! ## Claim C2 — cloze annotation conventions

Neither draft's renderer supports both annotation conventions in the
same input text: main.py's regex `\[.*?\]\(.*?\)` never matches a bare
`[answer]` span (the text is left unchanged), and polish.py's regex
`\[.*?\]` turns `[answer](hint)` into a hint-less placeholder, leaving
`(hint)` behind as plain text. -/

/-- C2 counterexample: main.py's renderer leaves the bare span of
`"x [abc] y"` completely unconverted, and polish.py's renderer converts
`"[a](h)"` into a placeholder that carries no hint at all — the escaped
hint survives only as loose trailing text. -/
theorem cloze_conventions_counterexample :
    Main.subCloze ("x [abc] y".toList) = "x [abc] y".toList
    ∧ Polish.subCloze ("[a](h)".toList)
        = Polish.clozeSpan ("a".toList) ++ "(h)".toList := by
  constructor <;> decide

/-- C2 amended: the two conventions are supported by different drafts, not
by one renderer over one input.  For an answer `a` and hint `b` free of
brackets, parentheses and newlines: main.py converts `[a](b)` into a
placeholder with escaped answer and escaped hint but passes a bare `[a]`
through unchanged, while polish.py converts the bare `[a]` into a
placeholder with escaped answer and no hint and, on `[a](b)`, conceals
only the bracket content, leaving `(b)` as plain text. -/
theorem cloze_conventions_amended (a b : List Char) (ha : plainSeg a) (hb : plainSeg b) :
    Main.subCloze ('[' :: a ++ ']' :: '(' :: b ++ [')']) = Main.clozeSpan a b
    ∧ Polish.subCloze ('[' :: a ++ [']']) = Polish.clozeSpan a
    ∧ Main.subCloze ('[' :: a ++ [']']) = '[' :: a ++ [']']
    ∧ Polish.subCloze ('[' :: a ++ ']' :: '(' :: b ++ [')'])
        = Polish.clozeSpan a ++ '(' :: b ++ [')'] :=
  ⟨main_subCloze_span a b ha hb, polish_subCloze_bare a ha,
   main_subCloze_bare a ha, polish_subCloze_hintSpan a b ha hb⟩

/-- C2 amended witness: the four behaviours at the concrete answer `ab`
and hint `cd`. -/
theorem cloze_conventions_amended_witness :
    Main.subCloze ("[ab](cd)".toList) = Main.clozeSpan ("ab".toList) ("cd".toList)
    ∧ Polish.subCloze ("[ab]".toList) = Polish.clozeSpan ("ab".toList)
    ∧ Main.subCloze ("[ab]".toList) = "[ab]".toList
    ∧ Polish.subCloze ("[ab](cd)".toList)
        = Polish.clozeSpan ("ab".toList) ++ "(cd)".toList := by
  exact cloze_conventions_amended ("ab".toList) ("cd".toList) (by decide) (by decide)

/-! ## Progressive reveal engine

The rendered document's JavaScript keeps one state per cloze span — unset
(`hidden`), `'partial'`, `'full'` in the `data-revealed` attribute — plus
the shared cursor `currentClozeIndex` over the array `clozeElements`.
`revealCloze` (the per-span click handler) is identical in both drafts;
`revealNextCloze` (the ArrowRight handler) differs: main.py's version
calls itself again after completing a span (main.py:327), polish.py's
does not.  The recursion in main.py's engine is embedded with a fuel of
`spans.length + 1`, which always suffices because every recursive call
has just turned one more span `full`. -/

/-- The `data-revealed` state of one cloze span (`partialReveal` is the
`'partial'` attribute value). -/
inductive RevealState where
  | hidden
  | partialReveal
  | full
deriving Repr, DecidableEq

/-- The document state: the span states in document order plus the shared
`currentClozeIndex` cursor. -/
structure Doc where
  spans : List RevealState
  cursor : Nat
deriving Repr, DecidableEq

/-- The `revealCloze(element)` click handler (identical in main.py:331-343
and polish.py:336-348): unset → `'partial'`, `'partial'` → `'full'`,
anything else unchanged. -/
def revealCloze (i : Nat) (d : Doc) : Doc :=
  match d.spans[i]? with
  | some .hidden => { d with spans := d.spans.set i .partialReveal }
  | some .partialReveal => { d with spans := d.spans.set i .full }
  | _ => d

/-- An ArrowRight keypress or a click on span `i`. -/
inductive RevealEvent where
  | click (i : Nat)
  | globalNext

namespace Polish

/-- polish.py's `revealNextCloze` (lines 314-334): advance the span at the
cursor one step; when the step completes the span, move the cursor to the
next span modulo the span count and stop. -/
def revealNextCloze (d : Doc) : Doc :=
  if d.spans.isEmpty then d
  else
    match d.spans[d.cursor]? with
    | some .hidden => { d with spans := d.spans.set d.cursor .partialReveal }
    | some .partialReveal =>
        { spans := d.spans.set d.cursor .full, cursor := (d.cursor + 1) % d.spans.length }
    | _ => d

/-- Dispatch of the two trigger surfaces onto polish.py's engine. -/
def applyEvent : RevealEvent → Doc → Doc
  | .click i, d => revealCloze i d
  | .globalNext, d => revealNextCloze d

end Polish

namespace Main

/-- main.py's `revealNextCloze` (lines 309-329) with explicit fuel: as in
polish.py, except that completing a span re-invokes the handler on the
advanced cursor in the same activation. -/
def revealNextClozeGo : Nat → Doc → Doc
  | 0, d => d
  | fuel + 1, d =>
    if d.spans.isEmpty then d
    else
      match d.spans[d.cursor]? with
      | some .hidden => { d with spans := d.spans.set d.cursor .partialReveal }
      | some .partialReveal =>
          revealNextClozeGo fuel
            { spans := d.spans.set d.cursor .full, cursor := (d.cursor + 1) % d.spans.length }
      | _ => d

/-- main.py's `revealNextCloze`: the fuel `spans.length + 1` is never
exhausted, because each self-invocation happens right after one more span
became `full` and the chain stops at the first non-`partial` span. -/
def revealNextCloze (d : Doc) : Doc := revealNextClozeGo (d.spans.length + 1) d

/-- Dispatch of the two trigger surfaces onto main.py's engine. -/
def applyEvent : RevealEvent → Doc → Doc
  | .click i, d => revealCloze i d
  | .globalNext, d => revealNextCloze d

end Main

/-- One trigger moves one span state forward by at most one step of
`hidden → partial → full`: either the state is unchanged, or it takes
exactly the next step.  In particular a `full` span can only stay `full`. -/
def stepRel (a b : Option RevealState) : Prop :=
  b = a ∨ (a = some .hidden ∧ b = some .partialReveal)
    ∨ (a = some .partialReveal ∧ b = some .full)

theorem stepRel_refl (a : Option RevealState) : stepRel a a := Or.inl rfl

theorem stepRel_full (b : Option RevealState) (h : stepRel (some .full) b) :
    b = some .full := by
  rcases h with h | ⟨h1, _⟩ | ⟨h1, _⟩
  · exact h
  · cases h1
  · cases h1

theorem revealCloze_step (i : Nat) (d : Doc) (k : Nat) :
    stepRel d.spans[k]? (revealCloze i d).spans[k]? := by
  cases h : d.spans[i]? with
  | none => simp [revealCloze, h, stepRel_refl]
  | some st =>
    have hi : i < d.spans.length := (List.getElem?_eq_some.mp h).1
    cases st with
    | hidden =>
      by_cases hik : i = k
      · subst hik
        right; left
        refine ⟨h, ?_⟩
        simp [revealCloze, h, List.getElem?_set, hi]
      · left
        simp [revealCloze, h, List.getElem?_set, hik]
    | partialReveal =>
      by_cases hik : i = k
      · subst hik
        right; right
        refine ⟨h, ?_⟩
        simp [revealCloze, h, List.getElem?_set, hi]
      · left
        simp [revealCloze, h, List.getElem?_set, hik]
    | full => simp [revealCloze, h, stepRel_refl]

theorem polish_next_step (d : Doc) (k : Nat) :
    stepRel d.spans[k]? (Polish.revealNextCloze d).spans[k]? := by
  by_cases he : d.spans.isEmpty
  · simp [Polish.revealNextCloze, he, stepRel_refl]
  cases h : d.spans[d.cursor]? with
  | none => simp [Polish.revealNextCloze, he, h, stepRel_refl]
  | some st =>
    have hi : d.cursor < d.spans.length := (List.getElem?_eq_some.mp h).1
    cases st with
    | hidden =>
      by_cases hik : d.cursor = k
      · subst hik
        right; left
        refine ⟨h, ?_⟩
        simp [Polish.revealNextCloze, he, h, List.getElem?_set, hi]
      · left
        simp [Polish.revealNextCloze, he, h, List.getElem?_set, hik]
    | partialReveal =>
      by_cases hik : d.cursor = k
      · subst hik
        right; right
        refine ⟨h, ?_⟩
        simp [Polish.revealNextCloze, he, h, List.getElem?_set, hi]
      · left
        simp [Polish.revealNextCloze, he, h, List.getElem?_set, hik]
    | full => simp [Polish.revealNextCloze, he, h, stepRel_refl]

theorem main_go_step : ∀ (fuel : Nat) (d : Doc) (k : Nat),
    stepRel d.spans[k]? (Main.revealNextClozeGo fuel d).spans[k]? := by
  intro fuel
  induction fuel with
  | zero => intro d k; exact stepRel_refl _
  | succ f ih =>
    intro d k
    by_cases he : d.spans.isEmpty
    · simp [Main.revealNextClozeGo, he, stepRel_refl]
    cases h : d.spans[d.cursor]? with
    | none => simp [Main.revealNextClozeGo, he, h, stepRel_refl]
    | some st =>
      have hi : d.cursor < d.spans.length := (List.getElem?_eq_some.mp h).1
      cases st with
      | hidden =>
        by_cases hik : d.cursor = k
        · subst hik
          right; left
          refine ⟨h, ?_⟩
          simp [Main.revealNextClozeGo, he, h, List.getElem?_set, hi]
        · left
          simp [Main.revealNextClozeGo, he, h, List.getElem?_set, hik]
      | partialReveal =>
        have hres : (Main.revealNextClozeGo (f + 1) d)
            = Main.revealNextClozeGo f
              { spans := d.spans.set d.cursor .full,
                cursor := (d.cursor + 1) % d.spans.length } := by
          simp [Main.revealNextClozeGo, he, h]
        rw [hres]
        set d' : Doc :=
          { spans := d.spans.set d.cursor .full,
            cursor := (d.cursor + 1) % d.spans.length } with hd'
        have ih' := ih d' k
        by_cases hik : d.cursor = k
        · subst hik
          have hset : d'.spans[d.cursor]? = some .full := by
            simp [hd', List.getElem?_set, hi]
          rw [hset] at ih'
          right; right
          exact ⟨h, stepRel_full _ ih'⟩
        · have hset : d'.spans[k]? = d.spans[k]? := by
            simp [hd', List.getElem?_set, hik]
          rwa [hset] at ih'
      | full => simp [Main.revealNextClozeGo, he, h, stepRel_refl]

/-! ## Claim C8 — reveal monotonicity -/

/-- C8: for any document state, any span index and either trigger surface
(direct click anywhere or the global trigger), both drafts' engines move
each individual span by at most one forward step of
`hidden → partial → full` and never backward; since `stepRel` forces a
`full` span to stay `full`, triggering a fully revealed span is a no-op,
and over any event sequence each span's distinct visited states form a
prefix of `[hidden, partial, full]`. -/
theorem reveal_monotonic (e : RevealEvent) (d : Doc) (i : Nat) :
    stepRel d.spans[i]? (Polish.applyEvent e d).spans[i]?
    ∧ stepRel d.spans[i]? (Main.applyEvent e d).spans[i]? := by
  cases e with
  | click j => exact ⟨revealCloze_step j d i, revealCloze_step j d i⟩
  | globalNext =>
    refine ⟨polish_next_step d i, ?_⟩
    exact main_go_step (d.spans.length + 1) d i

/-! ## Claim C3 — the global "reveal next" trigger

polish.py's engine advances exactly one span per activation and realises
the claimed four-trigger sequence.  main.py's engine does not: after the
`partial → full` step it calls `revealNextCloze()` again (main.py:327),
so the same activation also advances the next span, and three triggers
fully reveal two initially hidden spans. -/

/-- C3 counterexample: on main.py's engine with spans `[s0, s1]` both
hidden, the second global trigger changes *two* spans — `s0` goes
`partial → full` and, in the same activation, `s1` goes
`hidden → partial` — and the third trigger already completes `s1`, so the
claimed four-step sequence never happens. -/
theorem global_trigger_counterexample :
    Main.revealNextCloze (Doc.mk [.hidden, .hidden] 0)
      = Doc.mk [.partialReveal, .hidden] 0
    ∧ Main.revealNextCloze (Doc.mk [.partialReveal, .hidden] 0)
      = Doc.mk [.full, .partialReveal] 1
    ∧ Main.revealNextCloze (Doc.mk [.full, .partialReveal] 1)
      = Doc.mk [.full, .full] 0 := by
  refine ⟨?_, ?_, ?_⟩ <;> decide

/-- C3 amended: polish.py's global trigger touches no span other than the
one at the cursor, and from two hidden spans four consecutive polish.py
triggers produce exactly the claimed sequence (`s0` to partial; `s0` to
full, cursor to `s1`; `s1` to partial; `s1` to full, cursor back to
`s0`).  main.py's trigger instead cascades: an activation that completes
a span also advances the following span in the same activation. -/
theorem global_trigger_amended :
    (∀ (d : Doc) (i : Nat), i ≠ d.cursor →
        (Polish.revealNextCloze d).spans[i]? = d.spans[i]?)
    ∧ (Polish.revealNextCloze (Doc.mk [.hidden, .hidden] 0)
          = Doc.mk [.partialReveal, .hidden] 0
       ∧ Polish.revealNextCloze (Doc.mk [.partialReveal, .hidden] 0)
          = Doc.mk [.full, .hidden] 1
       ∧ Polish.revealNextCloze (Doc.mk [.full, .hidden] 1)
          = Doc.mk [.full, .partialReveal] 1
       ∧ Polish.revealNextCloze (Doc.mk [.full, .partialReveal] 1)
          = Doc.mk [.full, .full] 0)
    ∧ Main.revealNextCloze (Doc.mk [.partialReveal, .hidden] 0)
        = Doc.mk [.full, .partialReveal] 1 := by
  refine ⟨?_, by decide, by decide⟩
  intro d i hne
  by_cases he : d.spans.isEmpty
  · simp [Polish.revealNextCloze, he]
  have hne' : d.cursor ≠ i := fun e => hne e.symm
  cases h : d.spans[d.cursor]? with
  | none => simp [Polish.revealNextCloze, he, h]
  | some st =>
    cases st with
    | hidden => simp [Polish.revealNextCloze, he, h, List.getElem?_set, hne']
    | partialReveal => simp [Polish.revealNextCloze, he, h, List.getElem?_set, hne']
    | full => simp [Polish.revealNextCloze, he, h]

/-- C3 amended witness: the off-cursor span 1 of a concrete two-span
document is untouched by one polish.py global trigger. -/
theorem global_trigger_amended_witness :
    (Polish.revealNextCloze (Doc.mk [.hidden, .hidden] 0)).spans[1]?
      = (Doc.mk [.hidden, .hidden] 0).spans[1]? :=
  global_trigger_amended.1 (Doc.mk [.hidden, .hidden] 0) 1 (by decide)

/-! ## Generation pipeline (polish.py)

`generate_example_story` (polish.py:176-279) checks the backend's
credential environment variable first and returns `None` when it is unset
or empty; it then samples the vocabulary, builds the prompt (pure string
formatting, omitted here because the external service's reply is an input
of the embedding), calls the service with the declared `Dialog` response
schema, flattens the parsed dialog, and only then inserts the story into
the `examples` table.  The structured parse is modelled by decoding a raw
reply — optional fields, possibly absent — against the `DialogLine`
schema declared at polish.py:168-174, whose three fields are all
required; a failed decode is the `SchemaViolation` the SDK raises, which
propagates out of the function before the insert.  The surrounding
`convert_pauker_to_sqlite` (polish.py:146-156) ingests the cards, runs
the generation step only under `--example`, and commits. -/

/-- The `--model` choice. -/
inductive ModelChoice where
  | openai
  | gemini
deriving Repr, DecidableEq

/-- The credential environment (`OPENAI_API_KEY` / `GEMINI_API_KEY`),
each possibly unset. -/
structure Env where
  openaiKey : Option String
  geminiKey : Option String
deriving Repr, DecidableEq

/-- Python's `if not api_key` guard: the selected backend's variable must
be set and non-empty. -/
def hasKey (env : Env) (mdl : ModelChoice) : Bool :=
  match mdl with
  | .gemini =>
    match env.geminiKey with
    | none => false
    | some k => k != ""
  | .openai =>
    match env.openaiKey with
    | none => false
    | some k => k != ""

/-- The `DialogLine` pydantic model (polish.py:168-171): all three fields
required. -/
structure DialogLine where
  speaker : String
  german : String
  polish : String
deriving Repr, DecidableEq

/-- The `Dialog` pydantic model (polish.py:173-174). -/
structure Dialog where
  lines : List DialogLine
deriving Repr, DecidableEq

/-- One turn of the service's raw reply: each declared field may be
missing. -/
structure RawLine where
  speaker : Option String
  german : Option String
  polish : Option String
deriving Repr, DecidableEq

/-- The error the structured parse raises on a reply that does not match
the declared schema. -/
inductive GenError where
  | schemaViolation
deriving Repr, DecidableEq

/-- Decoding one raw turn against the `DialogLine` schema: every field
must be present. -/
def decodeDialogLine (r : RawLine) : Except GenError DialogLine :=
  match r.speaker, r.german, r.polish with
  | some s, some g, some p => .ok ⟨s, g, p⟩
  | _, _, _ => .error .schemaViolation

/-- Decoding the whole reply against the `Dialog` schema: the list of
turns must be present and every turn must decode. -/
def decodeDialog : Option (List RawLine) → Except GenError Dialog
  | none => .error .schemaViolation
  | some rs => (rs.mapM decodeDialogLine).map Dialog.mk

/-- The flattening `"\n".join(f"{line.speaker}: {line.german}
[{line.polish}]" for line in dialog.lines)` (polish.py:270). -/
def flattenDialog (dlg : Dialog) : String :=
  String.intercalate ("\n") (dlg.lines.map fun l =>
    l.speaker ++ (": ") ++ l.german ++ (" [") ++ l.polish ++ ("]"))

/-- A row of the `examples` table (the `date` column is defaulted by the
store and not modelled). -/
structure ExampleRow where
  id : String
  body : String
deriving Repr, DecidableEq

/-- The card and example tables of the output database. -/
structure Db where
  cards : List Card
  examples : List ExampleRow
deriving Repr, DecidableEq

namespace Polish

/-- polish.py's `generate_example_story`: `rows` is the randomly ordered
card table the SQL query reads, `rawReply` the service's reply, `newId`
the generated `uuid4`.  Returns the outcome of the generation step
(`.ok none` = skipped for a missing credential, `.error` = the parse
exception propagating) together with the resulting `examples` table. -/
def generate_example_story (env : Env) (mdl : ModelChoice) (rows : List Card)
    (rawReply : Option (List RawLine)) (examples : List ExampleRow) (newId : String) :
    Except GenError (Option String) × List ExampleRow :=
  if hasKey env mdl = false then (.ok none, examples)
  else
    let vocab := vocabList rows
    match decodeDialog rawReply with
    | .error e => (.error e, examples)
    | .ok dlg =>
      let story := flattenDialog dlg
      let _ := vocab
      (.ok (some story), examples ++ [⟨newId, story⟩])

/-- polish.py's `convert_pauker_to_sqlite` after the XML parse: ingest the
cards (the `cards` table is dropped and rebuilt, so it holds exactly the
ingested rows), optionally run the generation step (`shuffle` is the
`ORDER BY random()` order), and commit.  An exception from the generation
step propagates and aborts the run before the commit. -/
def convert_pauker_to_sqlite (batches : List (List CardXml)) (exampleFlag : Bool)
    (env : Env) (mdl : ModelChoice) (shuffle : List Card → List Card)
    (rawReply : Option (List RawLine)) (newId : String) : Except GenError Db :=
  let cards := ingestCards batches
  if exampleFlag then
    match generate_example_story env mdl (shuffle cards) rawReply [] newId with
    | (.error e, _) => .error e
    | (.ok _, ex) => .ok ⟨cards, ex⟩
  else .ok ⟨cards, []⟩

end Polish

/-! ## Claim C4 — missing credential -/

/-- A one-batch, one-card document for concrete pipeline runs. -/
def c4Batches : List (List CardXml) :=
  [[⟨some ⟨some (some "hallo"), none⟩, some ⟨some (some "hi"), none⟩⟩]]

/-- C4: with no credential configured for the selected backend, the
generation step returns the skipped result `none` instead of raising, the
`examples` table gains no row, and the whole run still commits
successfully with all ingested card rows in place. -/
theorem missing_credential_skips (batches : List (List CardXml)) (env : Env)
    (mdl : ModelChoice) (rows : List Card) (rawReply : Option (List RawLine))
    (examples : List ExampleRow) (newId : String) (shuffle : List Card → List Card)
    (h : hasKey env mdl = false) :
    Polish.generate_example_story env mdl rows rawReply examples newId
      = (.ok none, examples)
    ∧ Polish.convert_pauker_to_sqlite batches true env mdl shuffle rawReply newId
      = .ok ⟨ingestCards batches, []⟩ := by
  constructor
  · simp [Polish.generate_example_story, h]
  · simp [Polish.convert_pauker_to_sqlite, Polish.generate_example_story, h]

/-- C4 witness: with both credential variables unset, a concrete run
ingests its card row, skips generation, and produces a database with that
card row and an empty `examples` table. -/
theorem missing_credential_skips_witness :
    ingestCards c4Batches = [⟨"card1", 1, "\"hallo\"", "\"hi\"", none⟩]
    ∧ Polish.generate_example_story ⟨none, none⟩ .openai [] none [] "id1"
        = (.ok none, [])
    ∧ Polish.convert_pauker_to_sqlite c4Batches true ⟨none, none⟩ .openai id none "id1"
        = .ok ⟨ingestCards c4Batches, []⟩ :=
  ⟨by decide,
   (missing_credential_skips c4Batches ⟨none, none⟩ .openai [] none [] "id1" id rfl).1,
   (missing_credential_skips c4Batches ⟨none, none⟩ .openai [] none [] "id1" id rfl).2⟩

/-! ## Claim C5 — schema rejection -/

/-- C5: when a credential is present but the service reply cannot be
decoded against the declared schema (ordered turns with speaker, German
sentence and Polish translation all required), the structured parse fails
with `SchemaViolation`, the error propagates out of
`generate_example_story`, and the `examples` table is unchanged — the
insert at polish.py:275 is never reached. -/
theorem schema_violation_propagates (env : Env) (mdl : ModelChoice) (rows : List Card)
    (rawReply : Option (List RawLine)) (examples : List ExampleRow) (newId : String)
    (hk : hasKey env mdl = true)
    (hd : decodeDialog rawReply = .error .schemaViolation) :
    Polish.generate_example_story env mdl rows rawReply examples newId
      = (.error .schemaViolation, examples) := by
  simp [Polish.generate_example_story, hk, hd]

/-- C5 witness: a reply whose single turn lacks the German sentence is
rejected and inserts nothing. -/
theorem schema_violation_propagates_witness :
    Polish.generate_example_story ⟨some "k", none⟩ .openai []
        (some [⟨some "A", none, some "x"⟩]) [] "id1"
      = (.error .schemaViolation, []) :=
  schema_violation_propagates ⟨some "k", none⟩ .openai []
    (some [⟨some "A", none, some "x"⟩]) [] "id1" (by decide) rfl

/-! ## Claim C10 — stored side text is quote-wrapped -/

/-- Does the side exist and carry a `Text` child? -/
def hasTextElem : Option SideXml → Bool
  | none => false
  | some s => s.textElem.isSome

theorem quoted_ne_empty (t : String) : ("\"" ++ t ++ "\"" : String) ≠ "" := by
  intro h
  have hdata := congrArg String.data h
  rw [String.data_append, String.data_append] at hdata
  simp only [show ("" : String).data = [] from rfl,
    show ("\"" : String).data = [dquote] from rfl] at hdata
  cases hdata

theorem extractSideText_eq (s : SideXml) (t : Option String) (h : s.textElem = some t) :
    extractSideText (some s) = "\"" ++ t.getD ("") ++ "\"" := by
  simp [extractSideText, h]

theorem extractSideText_empty_iff (side : Option SideXml) :
    extractSideText side = "" ↔ hasTextElem side = false := by
  cases side with
  | none => simp [extractSideText, hasTextElem]
  | some s =>
    cases h : s.textElem with
    | none => simp [extractSideText, hasTextElem, h]
    | some t =>
      simp only [extractSideText_eq s t h, hasTextElem, h, Option.isSome_some]
      constructor
      · intro he
        exact absurd he (quoted_ne_empty _)
      · intro hf
        cases hf

/-- C10: whenever a card's `FrontSide` (resp. `ReverseSide`) carries a
`Text` child, the ingested row stores that child's text wrapped in
literal double quotes, hence a non-empty string even for an empty child
text; consequently the sampler's both-fields-empty drop test can reject
an ingested card only when neither side carries a `Text` element at all. -/
theorem stored_text_quoted (n bi : Nat) (x : CardXml) :
    (∀ s t, x.frontSide = some s → s.textElem = some t →
        (mkCard n bi x).front_text = "\"" ++ t.getD ("") ++ "\""
        ∧ (mkCard n bi x).front_text ≠ "")
    ∧ (∀ s t, x.reverseSide = some s → s.textElem = some t →
        (mkCard n bi x).back_text = "\"" ++ t.getD ("") ++ "\""
        ∧ (mkCard n bi x).back_text ≠ "")
    ∧ (nonEmptyCard (mkCard n bi x) = false
        ↔ (hasTextElem x.frontSide = false ∧ hasTextElem x.reverseSide = false)) := by
  refine ⟨?_, ?_, ?_⟩
  · intro s t hs ht
    have he : (mkCard n bi x).front_text = "\"" ++ t.getD ("") ++ "\"" := by
      simp [mkCard, hs, extractSideText_eq s t ht]
    exact ⟨he, he ▸ quoted_ne_empty _⟩
  · intro s t hs ht
    have he : (mkCard n bi x).back_text = "\"" ++ t.getD ("") ++ "\"" := by
      simp [mkCard, hs, extractSideText_eq s t ht]
    exact ⟨he, he ▸ quoted_ne_empty _⟩
  · have hf : (mkCard n bi x).front_text = extractSideText x.frontSide := rfl
    have hb : (mkCard n bi x).back_text = extractSideText x.reverseSide := rfl
    simp only [nonEmptyCard, hf, hb, Bool.or_eq_false_iff, bne_eq_false_iff_eq]
    rw [extractSideText_empty_iff, extractSideText_empty_iff]

/-- C10 witness: a card whose front `Text` child is the empty string and
whose reverse side is absent stores `""` wrapped in quotes on the front —
a non-empty field — and is therefore not dropped by the sampler's
emptiness test. -/
theorem stored_text_quoted_witness :
    (mkCard 1 1 ⟨some ⟨some (some ""), none⟩, none⟩).front_text
        = "\"" ++ (some "").getD ("") ++ "\""
    ∧ (mkCard 1 1 ⟨some ⟨some (some ""), none⟩, none⟩).front_text ≠ "" :=
  (stored_text_quoted 1 1 ⟨some ⟨some (some ""), none⟩, none⟩).1
    ⟨some (some ""), none⟩ (some "") rfl rfl

/-! ## Claim C7 — lenient fallback

Three malformed shapes are covered: an unclosed bracket region (no `]`
ever closes it — neither regex can match, the text is copied verbatim),
the same region sitting after a well-formed span in mixed text (the span
converts, the region is still copied verbatim), and a span `[a](b](c)`
that both of main.py's regex groups match but whose interior splits on
`](` into three parts, so the tuple unpacking in `process_cloze` raises
`ValueError` and the explicit fallback branch returns the whole match
unchanged.  All embedded extractors are total functions — the exception
paths of the Python code are their fallback branches — so no input
raises. -/

theorem findMainMatch_pre2 (a x s : List Char) (ha : plainSeg a)
    (hx : ∀ c ∈ x, c ≠ ')' ∧ c ≠ '\n') :
    findMainMatch (a ++ ']' :: '(' :: x ++ ')' :: s) = some (a.length + x.length + 3) := by
  induction a with
  | nil =>
    have hp : findParen (x ++ ')' :: s) = some x.length := findParen_pre x s hx
    simp [findMainMatch, hp]
  | cons c t ih =>
    have hc := ha c (by simp)
    have ht : plainSeg t := fun y hy => ha y (by simp [hy])
    have hcond : ¬(c = ']' ∧ (t ++ ']' :: '(' :: x ++ ')' :: s).head? = some '(') :=
      fun hand => hc.2.1 hand.1
    show findMainMatch (c :: (t ++ ']' :: '(' :: x ++ ')' :: s))
        = some ((c :: t).length + x.length + 3)
    simp only [findMainMatch]
    rw [if_neg hc.2.2.2.2, if_neg hcond, ih ht]
    simp only [Option.map_some', List.length_cons, Option.some.injEq]
    omega

theorem splitParts_sep (a z : List Char) (ha : ∀ c ∈ a, c ≠ ']') :
    splitParts (a ++ ']' :: '(' :: z) = a :: splitParts z := by
  induction a with
  | nil =>
    show splitParts (']' :: '(' :: z) = [] :: splitParts z
    simp [splitParts]
  | cons c t ih =>
    have hc : c ≠ ']' := ha c (by simp)
    have ht : ∀ x ∈ t, x ≠ ']' := fun x hx => ha x (by simp [hx])
    cases t with
    | nil =>
      show splitParts (c :: ']' :: '(' :: z) = [c] :: splitParts z
      have h0 : splitParts (']' :: '(' :: z) = [] :: splitParts z := by
        simp [splitParts]
      simp [splitParts, hc, h0]
    | cons d u =>
      show splitParts (c :: (d :: u ++ ']' :: '(' :: z)) = (c :: d :: u) :: splitParts z
      have ih' := ih ht
      simp only [List.cons_append] at ih'
      simp [splitParts, hc, ih']

theorem polish_subClozeF_pre (pre : List Char) (hpre : '[' ∉ pre) :
    ∀ fuel l, Polish.subClozeF (pre.length + fuel) (pre ++ l)
      = pre ++ Polish.subClozeF fuel l := by
  induction pre with
  | nil => intro fuel l; simp
  | cons p ps ih =>
    intro fuel l
    have hp : p ≠ '[' := fun e => hpre (by simp [e])
    have hps : '[' ∉ ps := fun m => hpre (by simp [m])
    have hlen : (p :: ps).length + fuel = (ps.length + fuel) + 1 := by
      simp only [List.length_cons]
      omega
    show Polish.subClozeF ((p :: ps).length + fuel) (p :: (ps ++ l))
        = p :: (ps ++ Polish.subClozeF fuel l)
    rw [hlen]
    simp [Polish.subClozeF, hp, ih hps fuel l]

theorem main_subClozeF_pre (pre : List Char) (hpre : '[' ∉ pre) :
    ∀ fuel l, Main.subClozeF (pre.length + fuel) (pre ++ l)
      = pre ++ Main.subClozeF fuel l := by
  induction pre with
  | nil => intro fuel l; simp
  | cons p ps ih =>
    intro fuel l
    have hp : p ≠ '[' := fun e => hpre (by simp [e])
    have hps : '[' ∉ ps := fun m => hpre (by simp [m])
    have hlen : (p :: ps).length + fuel = (ps.length + fuel) + 1 := by
      simp only [List.length_cons]
      omega
    show Main.subClozeF ((p :: ps).length + fuel) (p :: (ps ++ l))
        = p :: (ps ++ Main.subClozeF fuel l)
    rw [hlen]
    simp [Main.subClozeF, hp, ih hps fuel l]

theorem polish_span_then_tail (a t : List Char) (ha : plainSeg a) (ht : ']' ∉ t) :
    Polish.subClozeF ('[' :: (a ++ ']' :: t)).length ('[' :: (a ++ ']' :: t))
      = Polish.clozeSpan a ++ t := by
  have haNJ : ∀ x ∈ a, x ≠ ']' ∧ x ≠ '\n' := fun x hx => ⟨(ha x hx).2.1, (ha x hx).2.2.2.2⟩
  have hf : findCloseBracket (a ++ ']' :: t) = some a.length := findCloseBracket_pre a t haNJ
  have htake : (a ++ ']' :: t).take (a.length + 1) = a ++ [']'] := by
    simpa using @List.take_append Char a (']' :: t) 1
  have hdrop : (a ++ ']' :: t).drop (a.length + 1) = t := by
    have h0 := @List.drop_append Char a (']' :: t) 1
    simp only [List.drop_succ_cons, List.drop_zero] at h0
    exact h0
  have hp : Polish.process_cloze ('[' :: (a ++ [']'])) = Polish.clozeSpan a := by
    simpa [List.cons_append] using polish_process_cloze_bare a (fun x hx => (ha x hx).2.1)
  simp only [List.length_cons, Polish.subClozeF, hf, if_true]
  rw [htake, hdrop, hp, polish_subClozeF_noClose t ht]

theorem main_span_then_tail (a b t : List Char) (ha : plainSeg a) (hb : plainSeg b)
    (ht : ']' ∉ t) :
    Main.subClozeF ('[' :: (a ++ ']' :: '(' :: (b ++ ')' :: t))).length
        ('[' :: (a ++ ']' :: '(' :: (b ++ ')' :: t)))
      = Main.clozeSpan a b ++ t := by
  have haNe : ∀ x ∈ a, x ≠ ']' := fun x hx => (ha x hx).2.1
  have hbNe : ∀ x ∈ b, x ≠ ']' := fun x hx => (hb x hx).2.1
  have hm : findMainMatch (a ++ ']' :: '(' :: (b ++ ')' :: t))
      = some (a.length + b.length + 3) := by
    have h0 := findMainMatch_pre a b t ha hb
    simpa [List.cons_append] using h0
  have hPlen : (a ++ ']' :: '(' :: (b ++ [')'])).length = a.length + b.length + 3 := by
    simp only [List.length_append, List.length_cons, List.length_nil]
    omega
  have hre : a ++ ']' :: '(' :: (b ++ ')' :: t)
      = (a ++ ']' :: '(' :: (b ++ [')'])) ++ t := by
    simp
  have htake : (a ++ ']' :: '(' :: (b ++ ')' :: t)).take (a.length + b.length + 3)
      = a ++ ']' :: '(' :: (b ++ [')']) := by
    rw [hre, ← hPlen]
    exact List.take_left _ _
  have hdrop : (a ++ ']' :: '(' :: (b ++ ')' :: t)).drop (a.length + b.length + 3) = t := by
    rw [hre, ← hPlen]
    exact List.drop_left _ _
  have hp : Main.process_cloze ('[' :: (a ++ ']' :: '(' :: (b ++ [')'])))
      = Main.clozeSpan a b := by
    simpa [List.cons_append] using main_process_cloze_pair a b haNe hbNe
  simp only [List.length_cons, Main.subClozeF, hm, if_true]
  rw [htake, hdrop, hp, main_subClozeF_noClose t ht]

theorem main_subCloze_splitfail (a b c : List Char)
    (ha : plainSeg a) (hb : plainSeg b) (hc : plainSeg c) :
    Main.subCloze ('[' :: a ++ ']' :: '(' :: b ++ ']' :: '(' :: c ++ [')'])
      = '[' :: a ++ ']' :: '(' :: b ++ ']' :: '(' :: c ++ [')'] := by
  have haNe : ∀ x ∈ a, x ≠ ']' := fun x hx => (ha x hx).2.1
  have hbNe : ∀ x ∈ b, x ≠ ']' := fun x hx => (hb x hx).2.1
  have hcNe : ∀ x ∈ c, x ≠ ']' := fun x hx => (hc x hx).2.1
  have hx : ∀ x ∈ b ++ ']' :: '(' :: c, x ≠ ')' ∧ x ≠ '\n' := by
    intro x hxm
    rcases List.mem_append.mp hxm with h | h
    · exact ⟨(hb x h).2.2.2.1, (hb x h).2.2.2.2⟩
    rcases List.mem_cons.mp h with h | h
    · subst h; exact ⟨by decide, by decide⟩
    rcases List.mem_cons.mp h with h | h
    · subst h; exact ⟨by decide, by decide⟩
    · exact ⟨(hc x h).2.2.2.1, (hc x h).2.2.2.2⟩
  have hm0 := findMainMatch_pre2 a (b ++ ']' :: '(' :: c) [] ha hx
  simp only [List.cons_append, List.append_assoc, List.append_nil] at hm0
  have hlen : (a ++ ']' :: '(' :: (b ++ ']' :: '(' :: (c ++ [')']))).length
      = a.length + (b ++ ']' :: '(' :: c).length + 3 := by
    simp only [List.length_append, List.length_cons, List.length_nil]
    omega
  have hre : a ++ ']' :: '(' :: (b ++ ']' :: '(' :: (c ++ [')']))
      = (a ++ ']' :: '(' :: (b ++ ']' :: '(' :: c)) ++ [')'] := by
    simp
  have hsplit : splitParts (a ++ ']' :: '(' :: (b ++ ']' :: '(' :: c)) = [a, b, c] := by
    rw [splitParts_sep a _ haNe, splitParts_sep b c hbNe, splitParts_nosep c hcNe]
  have hproc : Main.process_cloze ('[' :: (a ++ ']' :: '(' :: (b ++ ']' :: '(' :: (c ++ [')']))))
      = '[' :: (a ++ ']' :: '(' :: (b ++ ']' :: '(' :: (c ++ [')']))) := by
    have hdl : (('[' :: (a ++ ']' :: '(' :: (b ++ ']' :: '(' :: (c ++ [')'])))).drop 1).dropLast
        = a ++ ']' :: '(' :: (b ++ ']' :: '(' :: c) := by
      show (a ++ ']' :: '(' :: (b ++ ']' :: '(' :: (c ++ [')']))).dropLast
          = a ++ ']' :: '(' :: (b ++ ']' :: '(' :: c)
      rw [hre, List.dropLast_concat]
    simp only [Main.process_cloze, hdl, hsplit]
  have key : Main.subClozeF ('[' :: (a ++ ']' :: '(' :: (b ++ ']' :: '(' :: (c ++ [')'])))).length
      ('[' :: (a ++ ']' :: '(' :: (b ++ ']' :: '(' :: (c ++ [')']))))
      = '[' :: (a ++ ']' :: '(' :: (b ++ ']' :: '(' :: (c ++ [')']))) := by
    simp only [List.length_cons, Main.subClozeF, hm0, if_true]
    rw [← hlen, List.take_length, List.drop_length, hproc, main_subClozeF_nil,
      List.append_nil]
  simp only [List.cons_append, List.append_assoc]
  exact key

/-- C7: malformed cloze-like bracket material is passed through unchanged
by the extractors, which are total (never raise).  For segments `a`,
`b`, `c` free of brackets, parentheses and newlines, a prefix `pre`
containing no `[`, and a malformed tail `t` that no `]` ever closes:
the span `[a](b](c)` — matched by main.py's regex but whose interior
cannot be split into exactly answer and hint, so the tuple unpacking
raises `ValueError` — is returned byte-for-byte by the fallback branch;
in mixed text, the well-formed span before the malformed tail converts
while the tail (including any unclosed `[` in it) is copied verbatim;
and a text that is malformed everywhere, in particular the spec's
`"odd [bracket without close"`, is returned byte-for-byte unchanged. -/
theorem lenient_fallback (pre a b c t : List Char) (hpre : '[' ∉ pre)
    (ha : plainSeg a) (hb : plainSeg b) (hc : plainSeg c) (ht : ']' ∉ t) :
    Main.subCloze ('[' :: a ++ ']' :: '(' :: b ++ ']' :: '(' :: c ++ [')'])
      = '[' :: a ++ ']' :: '(' :: b ++ ']' :: '(' :: c ++ [')']
    ∧ Polish.subCloze (pre ++ '[' :: a ++ ']' :: t) = pre ++ Polish.clozeSpan a ++ t
    ∧ Main.subCloze (pre ++ '[' :: a ++ ']' :: '(' :: b ++ ')' :: t)
      = pre ++ Main.clozeSpan a b ++ t
    ∧ Polish.subCloze t = t
    ∧ Main.subCloze t = t := by
  refine ⟨main_subCloze_splitfail a b c ha hb hc, ?_, ?_,
    polish_subClozeF_noClose t ht t.length, main_subClozeF_noClose t ht t.length⟩
  · simp only [List.cons_append, List.append_assoc]
    show Polish.subClozeF (pre ++ '[' :: (a ++ ']' :: t)).length
        (pre ++ '[' :: (a ++ ']' :: t)) = pre ++ (Polish.clozeSpan a ++ t)
    rw [List.length_append, polish_subClozeF_pre pre hpre, polish_span_then_tail a t ha ht]
  · simp only [List.cons_append, List.append_assoc]
    show Main.subClozeF (pre ++ '[' :: (a ++ ']' :: '(' :: (b ++ ')' :: t))).length
        (pre ++ '[' :: (a ++ ']' :: '(' :: (b ++ ')' :: t)))
        = pre ++ (Main.clozeSpan a b ++ t)
    rw [List.length_append, main_subClozeF_pre pre hpre, main_span_then_tail a b t ha hb ht]

/-- C7 witness: `[x](y](z)` trips main.py's split-failure fallback and is
returned unchanged; in mixed texts the well-formed span converts while
the spec's malformed tail is copied verbatim; and the spec's concrete
input `"odd [bracket without close"` is returned byte-for-byte unchanged
by both extractors. -/
theorem lenient_fallback_witness :
    Main.subCloze ("[x](y](z)".toList) = "[x](y](z)".toList
    ∧ Polish.subCloze ("ok [x]odd [bracket without close".toList)
        = "ok ".toList ++ Polish.clozeSpan ("x".toList)
            ++ "odd [bracket without close".toList
    ∧ Main.subCloze ("ok [x](y)odd [bracket without close".toList)
        = "ok ".toList ++ Main.clozeSpan ("x".toList) ("y".toList)
            ++ "odd [bracket without close".toList
    ∧ Polish.subCloze ("odd [bracket without close".toList)
        = "odd [bracket without close".toList
    ∧ Main.subCloze ("odd [bracket without close".toList)
        = "odd [bracket without close".toList := by
  exact lenient_fallback ("ok ".toList) ("x".toList) ("y".toList) ("z".toList)
    ("odd [bracket without close".toList) (by decide) (by decide) (by decide) (by decide)
    (by decide)
